import Mathlib

/-!
Shallow embedding of the transcript stitcher core
(lambdas/stitcher/handler.py): manifest parsing, chunk segment
loading, the two pass merge, and the output renderers.

Seconds are modelled as exact rationals.  Python `round` is modelled
by `pyRound` (round half to even), and Python `str.strip` by
`pyStrip` (drop leading and trailing whitespace).  The text
similarity function (`difflib.SequenceMatcher(None, a, b).ratio()` in
the source) is kept as an explicit parameter `sim` of the merge: the
theorems below use only the facts the source guarantees about it
(symmetry is unused; identical strings have ratio 1.0).
The chunk result store (S3 in the source) is modelled as a function
`fetch` from a window index to the optional list of raw segments of
that chunk's `out.json`; `none` models `_guess_chunk_key` returning
`None` for a missing chunk.
-/

/-- Tunable `OVERLAP_SEC`, default of env var `OVERLAP_SECONDS` is 1.0. -/
def OVERLAP_SEC : ℚ := 1

/-- Tunable `MIN_SEGMENT_SEC`, default of env var `MIN_SEGMENT_SECONDS` is 0.06. -/
def MIN_SEGMENT_SEC : ℚ := 6/100

/-- `EPS = 1e-6`, the epsilon for floating point comparisons. -/
def EPS : ℚ := 1/1000000

/-- `DEDUP_SIM_THRESH = 0.85`, the similarity threshold for overlap de-dup. -/
def DEDUP_SIM_THRESH : ℚ := 85/100

/-- Python `round` to an integer: round half to even. -/
def pyRound (q : ℚ) : ℤ :=
  if q - (Int.floor q : ℚ) < 1/2 then Int.floor q
  else if (1 : ℚ)/2 < q - (Int.floor q : ℚ) then Int.floor q + 1
  else if Int.floor q % 2 = 0 then Int.floor q else Int.floor q + 1

/-- Python `round(x, 3)`. -/
def round3 (q : ℚ) : ℚ := (pyRound (q * 1000) : ℚ) / 1000

/-- Python `str.strip` on the underlying character list. -/
def stripChars (l : List Char) : List Char :=
  ((l.dropWhile Char.isWhitespace).reverse.dropWhile Char.isWhitespace).reverse

/-- Python `str.strip`. -/
def pyStrip (s : String) : String := String.mk (stripChars s.data)

/-- One raw segment record of a chunk result (an entry of the
`segments` field of `out.json`), after the JSON field extraction with
defaults that `_load_chunk_segments` performs (`float(s.get("start", 0.0))`,
a missing or null text becomes the empty string).  `stop` embeds the
`end` field, which is a reserved word in Lean. -/
structure RawSeg where
  start : ℚ
  stop : ℚ
  text : String
deriving DecidableEq

/-- A normalized chunk relative segment as produced by `_load_chunk_segments`. -/
structure Seg where
  start : ℚ
  stop : ℚ
  text : String
deriving DecidableEq

/-- A merged global segment: `id`, `start`, `end` (called `stop` here), `text`. -/
structure GSeg where
  id : ℕ
  start : ℚ
  stop : ℚ
  text : String
deriving DecidableEq

/-- A normalized manifest window entry. -/
structure Entry where
  index : ℤ
  start_sec : ℚ
  end_sec : ℚ
deriving DecidableEq

/-- A raw manifest JSONL record as it comes out of `json.loads`:
`none` marks a missing required key. -/
structure RawWindowRecord where
  index : Option ℤ
  start_sec : Option ℚ
  end_sec : Option ℚ
deriving DecidableEq

/-- The Python exception raised while normalizing a manifest record:
a missing dictionary key raises `KeyError`. -/
inductive PyErr where
  | keyError
deriving DecidableEq

/-- Field extraction for one manifest record, as in
`_parse_manifest_jsonl`: read the three required keys; a missing key
raises `KeyError`.  No further validation is performed. -/
def parse_manifest_entry (r : RawWindowRecord) : Except PyErr Entry :=
  match r.index, r.start_sec, r.end_sec with
  | some i, some s, some e => Except.ok ⟨i, s, e⟩
  | _, _, _ => Except.error PyErr.keyError

/-- The sort key of `entries.sort(key=lambda x: x["index"])`. -/
def entryLe (a b : Entry) : Prop := a.index ≤ b.index

instance : DecidableRel entryLe := fun a b => Int.decLe a.index b.index

instance : IsTotal Entry entryLe := ⟨fun a b => Int.le_total a.index b.index⟩

instance : IsTrans Entry entryLe := ⟨fun _ _ _ h1 h2 => Int.le_trans h1 h2⟩

/-- `_parse_manifest_jsonl`: normalize every (non blank) line, then
sort stably by index (Python list sort is stable; `insertionSort`
with a total preorder computes the same stable sort). -/
def parse_manifest_jsonl (rs : List RawWindowRecord) : Except PyErr (List Entry) :=
  Except.map (List.insertionSort entryLe) (rs.mapM parse_manifest_entry)

/-- `_load_chunk_segments`: trim each text, drop segments whose
trimmed text is empty or whose duration is at most `EPS`. -/
def load_chunk_segments : List RawSeg → List Seg
  | [] => []
  | s :: rest =>
    if pyStrip s.text = "" then load_chunk_segments rest
    else if s.stop - s.start ≤ EPS then load_chunk_segments rest
    else ⟨s.start, s.stop, pyStrip s.text⟩ :: load_chunk_segments rest

/-- Running state of the first pass of `_merge_segments`.
`revMerged` holds the accepted global segments most recent first: the
source keeps them oldest first and scans backward from the end, which
is the same access pattern. -/
structure MState where
  revMerged : List GSeg
  seg_id : ℕ
  last_end : ℚ
  chunks : ℕ
  dropped_short : ℕ
  dropped_overlap : ℕ
deriving DecidableEq

/-- The initial merge state. -/
def initState : MState := ⟨[], 0, 0, 0, 0, 0⟩

/-- The backward overlap scan of `_merge_segments`: walk the accepted
segments from the most recent while their `start` is at least
`gs - w`; report whether some scanned text has similarity at least
`DEDUP_SIM_THRESH` with the candidate text. -/
def dedupScan (sim : String → String → ℚ) (w gs : ℚ) (t : String) : List GSeg → Bool
  | [] => false
  | g :: rest =>
    if gs - w ≤ g.start then
      if DEDUP_SIM_THRESH ≤ sim g.text t then true else dedupScan sim w gs t rest
    else false

/-- Processing of one candidate segment in the first pass of
`_merge_segments`: offset to global time, defensive window clamping,
text similarity de-dup, temporal de-dup, left trim, minimum duration
filter, then acceptance. -/
def mergeStep (minSeg overlap : ℚ) (sim : String → String → ℚ)
    (cStart cEnd : ℚ) (st : MState) (s : Seg) : MState :=
  let gs := s.start + cStart
  let ge := s.stop + cStart
  if ge < cStart + EPS ∨ cEnd - EPS < gs then st
  else
    let gs := max gs cStart
    let ge := min ge cEnd
    if dedupScan sim (max overlap 2) gs s.text st.revMerged then
      { st with dropped_overlap := st.dropped_overlap + 1 }
    else if ge ≤ st.last_end + EPS then
      { st with dropped_overlap := st.dropped_overlap + 1 }
    else
      let gs := if gs < st.last_end then st.last_end else gs
      if ge - gs < minSeg then
        { st with dropped_short := st.dropped_short + 1 }
      else
        { st with
          revMerged := ⟨st.seg_id, round3 gs, round3 ge, s.text⟩ :: st.revMerged,
          seg_id := st.seg_id + 1,
          last_end := ge }

/-- Processing of one manifest window in the first pass of
`_merge_segments`: a missing chunk (`fetch` returns `none`, as
`_guess_chunk_key` returning `None`) is skipped; otherwise the loaded
segments are folded through `mergeStep` and the chunk counter is
incremented. -/
def mergeChunk (minSeg overlap : ℚ) (sim : String → String → ℚ)
    (fetch : ℤ → Option (List RawSeg)) (st : MState) (e : Entry) : MState :=
  match fetch e.index with
  | none => st
  | some raw =>
    let st2 := (load_chunk_segments raw).foldl (mergeStep minSeg overlap sim e.start_sec e.end_sec) st
    { st2 with chunks := st2.chunks + 1 }

/-- The repair pass at the end of `_merge_segments`: forward only,
snap a retreating start to the running `last` cursor, drop segments
whose resulting duration is below the minimum, re-assign dense ids.
`n` is `len(fixed)` and `last` the running cursor. -/
def repairGo (minSeg : ℚ) (n : ℕ) (last : ℚ) : List GSeg → List GSeg
  | [] => []
  | seg :: rest =>
    let s := seg.start
    let e := seg.stop
    let s := if s < last then last else s
    let s := if 0 < s - last then max last s else s
    if e - s < minSeg then repairGo minSeg n last rest
    else ⟨n, round3 s, round3 e, seg.text⟩ :: repairGo minSeg (n + 1) e rest

/-- `_merge_segments`: fold all manifest windows through `mergeChunk`,
then run the repair pass.  Returns the final segment list and the
final state (whose counters are the `meta` dictionary of the source:
`chunks`, `dropped_short`, `dropped_overlap`). -/
def merge_segments (minSeg overlap : ℚ) (sim : String → String → ℚ)
    (manifest : List Entry) (fetch : ℤ → Option (List RawSeg)) : List GSeg × MState :=
  let st := manifest.foldl (mergeChunk minSeg overlap sim fetch) initState
  (repairGo minSeg 0 0 st.revMerged.reverse, st)

/-- `_merge_segments` with the default tunables. -/
def merge_segmentsD (sim : String → String → ℚ)
    (manifest : List Entry) (fetch : ℤ → Option (List RawSeg)) : List GSeg × MState :=
  merge_segments MIN_SEGMENT_SEC OVERLAP_SEC sim manifest fetch

/-- Python `f"{n:0wd}"`: decimal with zeros padding up to width `w`,
the sign counting toward the width. -/
def padNum (w : ℕ) (n : ℤ) : String :=
  let sign := if n < 0 then "-" else ""
  let digits := toString n.natAbs
  sign ++ String.mk (List.replicate (w - (sign.length + digits.length)) '0') ++ digits

/-- `_sec_to_hhmmss_msec_vtt`: format seconds as HH:MM:SS.mmm. -/
def sec_to_hhmmss_msec_vtt (s : ℚ) : String :=
  let ms0 := pyRound (s * 1000)
  let hours := Int.fdiv ms0 3600000
  let ms1 := ms0 - hours * 3600000
  let minutes := Int.fdiv ms1 60000
  let ms2 := ms1 - minutes * 60000
  let seconds := Int.fdiv ms2 1000
  let ms3 := ms2 - seconds * 1000
  padNum 2 hours ++ ":" ++ padNum 2 minutes ++ ":" ++ padNum 2 seconds ++ "." ++ padNum 3 ms3

/-- `_sec_to_hhmmss_msec_srt`: format seconds as HH:MM:SS,mmm. -/
def sec_to_hhmmss_msec_srt (s : ℚ) : String :=
  let ms0 := pyRound (s * 1000)
  let hours := Int.fdiv ms0 3600000
  let ms1 := ms0 - hours * 3600000
  let minutes := Int.fdiv ms1 60000
  let ms2 := ms1 - minutes * 60000
  let seconds := Int.fdiv ms2 1000
  let ms3 := ms2 - seconds * 1000
  padNum 2 hours ++ ":" ++ padNum 2 minutes ++ ":" ++ padNum 2 seconds ++ "," ++ padNum 3 ms3

/-- `_to_txt`: one line per segment text, newline terminated when the
sequence is non empty. -/
def to_txt (segs : List GSeg) : String :=
  String.intercalate "\n" (segs.map (fun s => s.text)) ++ (if segs.isEmpty then "" else "\n")

/-- `_to_vtt`: header, blank, then cue line, text, blank per segment;
joined with newlines. -/
def to_vtt (segs : List GSeg) : String :=
  String.intercalate "\n"
    (["WEBVTT", ""] ++ segs.foldr
      (fun s acc =>
        (sec_to_hhmmss_msec_vtt s.start ++ " --> " ++ sec_to_hhmmss_msec_vtt s.stop)
          :: s.text :: "" :: acc) [])

/-- The per segment parts of `_to_srt`, with the 1-based cue counter. -/
def srtParts (i : ℕ) : List GSeg → List String
  | [] => []
  | s :: rest =>
    toString i
      :: (sec_to_hhmmss_msec_srt s.start ++ " --> " ++ sec_to_hhmmss_msec_srt s.stop)
      :: s.text :: "" :: srtParts (i + 1) rest

/-- `_to_srt`: cue number, cue line, text, blank per segment; joined
with newlines. -/
def to_srt (segs : List GSeg) : String :=
  String.intercalate "\n" (srtParts 1 segs)

/-- The structured transcript payload built by `_to_transcript_json`. -/
structure TranscriptJson where
  job_id : String
  language : Option String
  duration_sec : ℚ
  segments : List GSeg
deriving DecidableEq

/-- `_to_transcript_json`: `duration_sec` is the last segment's end,
or 0.0 for an empty sequence. -/
def to_transcript_json (jobId : String) (language : Option String)
    (segs : List GSeg) : TranscriptJson :=
  ⟨jobId, language,
    (match segs.getLast? with
     | some g => g.stop
     | none => 0), segs⟩

/-- Test fixture: a similarity function that rates every pair 1.0
(what `difflib` returns on identical strings). -/
def simW : String → String → ℚ := fun _ _ => 1

/-- Test fixture: window 0 of the overlap de-dup scenario. -/
def entry0 : Entry := ⟨0, 0, 600⟩

/-- Test fixture: window 1 of the overlap de-dup scenario. -/
def entry1 : Entry := ⟨1, 599, 1200⟩

/-- Test fixture: the two window manifest of the overlap de-dup scenario. -/
def manifest3 : List Entry := [entry0, entry1]

/-- Test fixture: chunk 0 ends with "hello world" at 598.5 .. 599.8. -/
def chunk0 : List RawSeg := [⟨1197/2, 2999/5, "hello world"⟩]

/-- Test fixture: chunk 1 begins with "hello world" at 0.1 .. 1.3 chunk relative. -/
def chunk1 : List RawSeg := [⟨1/10, 13/10, "hello world"⟩]

/-- Test fixture: the chunk store of the overlap de-dup scenario. -/
def fetch3 : ℤ → Option (List RawSeg) :=
  fun i => if i = 0 then some chunk0 else if i = 1 then some chunk1 else none

/-- Test fixture: the accepted global segment of the de-dup scenario. -/
def g0 : GSeg := ⟨0, 1197/2, 2999/5, "hello world"⟩

/-- Test fixture: the merge state after processing chunk 0. -/
def st1 : MState := ⟨[g0], 1, 2999/5, 1, 0, 0⟩

/-- Test fixture: the final merge state of the de-dup scenario. -/
def st2 : MState := ⟨[g0], 1, 2999/5, 2, 0, 1⟩

/-- Test fixture: the loaded shape of the first segment of chunk 1. -/
def seg1c : Seg := ⟨1/10, 13/10, "hello world"⟩

/-- Test fixture: a manifest with a duplicated index (unsorted). -/
def rsW : List RawWindowRecord :=
  [⟨some 2, some 0, some 1⟩, ⟨some 0, some 5, some 6⟩, ⟨some 2, some 7, some 8⟩]

/-- Test fixture: the entries of `rsW` in file order. -/
def esW : List Entry := [⟨2, 0, 1⟩, ⟨0, 5, 6⟩, ⟨2, 7, 8⟩]

/-- Test fixture: the entries of `rsW` stably sorted by index. -/
def lW : List Entry := [⟨0, 5, 6⟩, ⟨2, 0, 1⟩, ⟨2, 7, 8⟩]

set_option maxRecDepth 10000

/-! ### Arithmetic facts about `pyRound` and `round3` -/

theorem floor_le_pyRound (q : ℚ) : Int.floor q ≤ pyRound q := by
  unfold pyRound
  split_ifs <;> omega

theorem pyRound_le_floor_add_one (q : ℚ) : pyRound q ≤ Int.floor q + 1 := by
  unfold pyRound
  split_ifs <;> omega

theorem pyRound_mono {a b : ℚ} (h : a ≤ b) : pyRound a ≤ pyRound b := by
  rcases lt_or_eq_of_le (Int.floor_mono h) with hlt | heq
  · have h1 := pyRound_le_floor_add_one a
    have h2 := floor_le_pyRound b
    omega
  · have hcast : ((Int.floor a : ℤ) : ℚ) = ((Int.floor b : ℤ) : ℚ) := by rw [heq]
    unfold pyRound
    split_ifs <;> first | omega | linarith [hcast]

theorem pyRound_add_sixty (q : ℚ) : pyRound (q + 60) = pyRound q + 60 := by
  unfold pyRound
  have hf : Int.floor (q + 60) = Int.floor q + 60 := by
    have h60 : (60 : ℚ) = ((60 : ℤ) : ℚ) := by norm_num
    rw [h60, Int.floor_add_int]
  rw [hf]
  have hfrac : q + 60 - ((Int.floor q + 60 : ℤ) : ℚ) = q - ((Int.floor q : ℤ) : ℚ) := by
    push_cast
    ring
  rw [hfrac]
  split_ifs <;> omega

theorem round3_mono {a b : ℚ} (h : a ≤ b) : round3 a ≤ round3 b := by
  unfold round3
  have h1 : pyRound (a * 1000) ≤ pyRound (b * 1000) := pyRound_mono (by linarith)
  have h2 : ((pyRound (a * 1000) : ℤ) : ℚ) ≤ ((pyRound (b * 1000) : ℤ) : ℚ) := by
    exact_mod_cast h1
  linarith

theorem round3_shift {s e : ℚ} (h : s + 6/100 ≤ e) : round3 s + 6/100 ≤ round3 e := by
  have h1 : pyRound (s * 1000) + 60 ≤ pyRound (e * 1000) := by
    have h2 := pyRound_add_sixty (s * 1000)
    have h3 : pyRound (s * 1000 + 60) ≤ pyRound (e * 1000) := pyRound_mono (by linarith)
    omega
  unfold round3
  have h4 : ((pyRound (s * 1000) : ℤ) : ℚ) + 60 ≤ ((pyRound (e * 1000) : ℤ) : ℚ) := by
    exact_mod_cast h1
  linarith

/-! ### The repair pass establishes the posted invariant -/

theorem repair_adj_eq (last s : ℚ) :
    (if 0 < (if s < last then last else s) - last then max last (if s < last then last else s)
     else (if s < last then last else s)) = max last s := by
  rcases lt_or_le s last with h | h
  · rw [if_pos h, if_neg (by simp), max_eq_left h.le]
  · rw [if_neg (not_lt.mpr h)]
    rcases eq_or_lt_of_le h with he | hlt
    · rw [← he]
      simp
    · rw [if_pos (by linarith), max_eq_right h]

theorem repairGo_cons_eq (minSeg : ℚ) (n : ℕ) (last : ℚ) (seg : GSeg) (rest : List GSeg) :
    repairGo minSeg n last (seg :: rest)
      = if seg.stop - max last seg.start < minSeg then repairGo minSeg n last rest
        else ⟨n, round3 (max last seg.start), round3 seg.stop, seg.text⟩
              :: repairGo minSeg (n + 1) seg.stop rest := by
  simp only [repairGo]
  rw [repair_adj_eq]

theorem minSeg_pos : (0 : ℚ) < MIN_SEGMENT_SEC := by norm_num [MIN_SEGMENT_SEC]

theorem repairGo_start_ge :
    ∀ (l : List GSeg) (n : ℕ) (last : ℚ),
      ∀ g ∈ repairGo MIN_SEGMENT_SEC n last l, round3 last ≤ g.start
  | [], _, _ => by simp [repairGo]
  | seg :: rest, n, last => by
    rw [repairGo_cons_eq]
    split_ifs with hd
    · exact repairGo_start_ge rest n last
    · intro g hg
      rcases List.mem_cons.mp hg with rfl | hg'
      · exact round3_mono (le_max_left last seg.start)
      · have h1 : round3 seg.stop ≤ g.start := repairGo_start_ge rest (n + 1) seg.stop g hg'
        have h2 : last ≤ seg.stop := by
          have h3 := not_lt.mp hd
          have h4 := le_max_left last seg.start
          have h5 := minSeg_pos
          linarith
        exact le_trans (round3_mono h2) h1

theorem repairGo_min_duration :
    ∀ (l : List GSeg) (n : ℕ) (last : ℚ),
      ∀ g ∈ repairGo MIN_SEGMENT_SEC n last l, MIN_SEGMENT_SEC ≤ g.stop - g.start
  | [], _, _ => by simp [repairGo]
  | seg :: rest, n, last => by
    rw [repairGo_cons_eq]
    split_ifs with hd
    · exact repairGo_min_duration rest n last
    · intro g hg
      rcases List.mem_cons.mp hg with rfl | hg'
      · have h3 := not_lt.mp hd
        have h6 : max last seg.start + 6/100 ≤ seg.stop := by
          have h5 : MIN_SEGMENT_SEC = 6/100 := rfl
          linarith [h5 ▸ h3]
        have h7 := round3_shift h6
        show MIN_SEGMENT_SEC ≤ round3 seg.stop - round3 (max last seg.start)
        have h5 : MIN_SEGMENT_SEC = 6/100 := rfl
        linarith [h5 ▸ h7]
      · exact repairGo_min_duration rest (n + 1) seg.stop g hg'

theorem repairGo_chain :
    ∀ (l : List GSeg) (n : ℕ) (last : ℚ),
      List.Chain' (fun a b => a.stop ≤ b.start ∧ a.start ≤ b.start ∧ a.stop ≤ b.stop)
        (repairGo MIN_SEGMENT_SEC n last l)
  | [], _, _ => by simp [repairGo]
  | seg :: rest, n, last => by
    rw [repairGo_cons_eq]
    split_ifs with hd
    · exact repairGo_chain rest n last
    · refine List.chain'_cons'.mpr ⟨?_, repairGo_chain rest (n + 1) seg.stop⟩
      intro y hy
      have hy' : y ∈ repairGo MIN_SEGMENT_SEC (n + 1) seg.stop rest := List.mem_of_mem_head? hy
      have h1 : round3 seg.stop ≤ y.start := repairGo_start_ge rest (n + 1) seg.stop y hy'
      have h2 : MIN_SEGMENT_SEC ≤ y.stop - y.start := repairGo_min_duration rest (n + 1) seg.stop y hy'
      have h3 : max last seg.start ≤ seg.stop := by
        have h4 := not_lt.mp hd
        have h5 := minSeg_pos
        linarith
      have h6 : round3 (max last seg.start) ≤ round3 seg.stop := round3_mono h3
      have h7 := minSeg_pos
      exact ⟨h1, by linarith, by linarith⟩

theorem repairGo_ids :
    ∀ (l : List GSeg) (n : ℕ) (last : ℚ),
      (repairGo MIN_SEGMENT_SEC n last l).map (fun g => g.id)
        = List.range' n (repairGo MIN_SEGMENT_SEC n last l).length
  | [], _, _ => by simp [repairGo]
  | seg :: rest, n, last => by
    rw [repairGo_cons_eq]
    split_ifs with hd
    · exact repairGo_ids rest n last
    · simp only [List.map_cons, List.length_cons, List.range'_succ]
      rw [repairGo_ids rest (n + 1) seg.stop]

/-- Claim C1: for every input manifest, chunk store and similarity
function, the final segment sequence produced after the repair pass
satisfies the posted invariant: starts are non decreasing, every
segment's start is at least the previous segment's end, every
segment's duration is at least `MIN_SEGMENT_SEC`, segment ends never
retreat, and ids are dense (0 based, contiguous). -/
theorem C1_posted_invariant (sim : String → String → ℚ) (manifest : List Entry)
    (fetch : ℤ → Option (List RawSeg)) :
    List.Chain' (fun a b => a.start ≤ b.start) (merge_segmentsD sim manifest fetch).1
    ∧ List.Chain' (fun a b => a.stop ≤ b.start) (merge_segmentsD sim manifest fetch).1
    ∧ (∀ g ∈ (merge_segmentsD sim manifest fetch).1, MIN_SEGMENT_SEC ≤ g.stop - g.start)
    ∧ List.Chain' (fun a b => a.stop ≤ b.stop) (merge_segmentsD sim manifest fetch).1
    ∧ (merge_segmentsD sim manifest fetch).1.map (fun g => g.id)
        = List.range (merge_segmentsD sim manifest fetch).1.length := by
  have hdef : (merge_segmentsD sim manifest fetch).1
      = repairGo MIN_SEGMENT_SEC 0 0
          ((manifest.foldl (mergeChunk MIN_SEGMENT_SEC OVERLAP_SEC sim fetch) initState).revMerged.reverse) := rfl
  rw [hdef]
  set l := (manifest.foldl (mergeChunk MIN_SEGMENT_SEC OVERLAP_SEC sim fetch) initState).revMerged.reverse with hl
  refine ⟨(repairGo_chain l 0 0).imp (fun _ _ h => h.2.1),
          (repairGo_chain l 0 0).imp (fun _ _ h => h.1),
          repairGo_min_duration l 0 0,
          (repairGo_chain l 0 0).imp (fun _ _ h => h.2.2),
          ?_⟩
  rw [List.range_eq_range']
  exact repairGo_ids l 0 0

/-! ### Renderer evaluations and empty input behavior -/

/-- Claim C2 (as stated, refuted): on the one segment input the
renderers do NOT produce the double trailing newline the claim
posits; `"\n".join` puts no newline after the final (empty) element,
so each output ends with a single newline. -/
theorem C2_counterexample :
    ¬ (to_vtt [⟨0, 0, 3/2, "Hi"⟩] = "WEBVTT\n\n00:00:00.000 --> 00:00:01.500\nHi\n\n"
       ∧ to_srt [⟨0, 0, 3/2, "Hi"⟩] = "1\n00:00:00,000 --> 00:00:01,500\nHi\n\n") := by
  with_unfolding_all decide

/-- Claim C2 (amended): for the one segment input sequence
`id 0, start 0.0, end 1.5, text "Hi"`, the WebVTT renderer returns
exactly `"WEBVTT\n\n00:00:00.000 --> 00:00:01.500\nHi\n"` and the
SubRip renderer returns exactly
`"1\n00:00:00,000 --> 00:00:01,500\nHi\n"` (a single trailing
newline each). -/
theorem C2_format_strings :
    to_vtt [⟨0, 0, 3/2, "Hi"⟩] = "WEBVTT\n\n00:00:00.000 --> 00:00:01.500\nHi\n"
    ∧ to_srt [⟨0, 0, 3/2, "Hi"⟩] = "1\n00:00:00,000 --> 00:00:01,500\nHi\n" := by
  constructor <;> with_unfolding_all decide

theorem foldl_mergeChunk_revMerged_nil (minSeg overlap : ℚ) (sim : String → String → ℚ)
    (fetch : ℤ → Option (List RawSeg)) :
    ∀ (manifest : List Entry) (st : MState),
      (∀ e ∈ manifest, ∀ raw, fetch e.index = some raw → load_chunk_segments raw = []) →
      st.revMerged = [] →
      (manifest.foldl (mergeChunk minSeg overlap sim fetch) st).revMerged = []
  | [], st, _, hst => hst
  | e :: rest, st, h, hst => by
    rw [List.foldl_cons]
    refine foldl_mergeChunk_revMerged_nil minSeg overlap sim fetch rest _
      (fun e' he' => h e' (List.mem_cons_of_mem e he')) ?_
    cases hf : fetch e.index with
    | none => simpa only [mergeChunk, hf] using hst
    | some raw =>
      simp only [mergeChunk, hf, h e (List.mem_cons_self e rest) raw hf, List.foldl_nil]
      exact hst

/-- Claim C5 (as stated, refuted): for the empty sequence the WebVTT
renderer returns `"WEBVTT\n"`, not `"WEBVTT\n\n"`. -/
theorem C5_counterexample : ¬ (to_vtt [] = "WEBVTT\n\n") := by decide

/-- Claim C5 (amended): for zero windows, or for windows whose chunk
results contribute no segments, the output segment sequence is empty,
the plain text output is the empty string, the WebVTT output is
exactly `"WEBVTT\n"`, the SubRip output is the empty string, and
`duration_sec` in the structured transcript is 0.0 (`duration_sec`
is the last segment's end otherwise). -/
theorem C5_empty_input (sim : String → String → ℚ) (manifest : List Entry)
    (fetch : ℤ → Option (List RawSeg))
    (h : ∀ e ∈ manifest, ∀ raw, fetch e.index = some raw → load_chunk_segments raw = []) :
    (merge_segmentsD sim manifest fetch).1 = []
    ∧ to_txt (merge_segmentsD sim manifest fetch).1 = ""
    ∧ to_vtt (merge_segmentsD sim manifest fetch).1 = "WEBVTT\n"
    ∧ to_srt (merge_segmentsD sim manifest fetch).1 = ""
    ∧ (∀ jid lang, (to_transcript_json jid lang (merge_segmentsD sim manifest fetch).1).duration_sec = 0)
    ∧ (∀ jid lang (segs : List GSeg) (g : GSeg), segs.getLast? = some g →
        (to_transcript_json jid lang segs).duration_sec = g.stop) := by
  have h2 : (manifest.foldl (mergeChunk MIN_SEGMENT_SEC OVERLAP_SEC sim fetch) initState).revMerged = [] :=
    foldl_mergeChunk_revMerged_nil MIN_SEGMENT_SEC OVERLAP_SEC sim fetch manifest initState h rfl
  have h1 : (merge_segmentsD sim manifest fetch).1 = [] := by
    show repairGo MIN_SEGMENT_SEC 0 0
      ((manifest.foldl (mergeChunk MIN_SEGMENT_SEC OVERLAP_SEC sim fetch) initState).revMerged.reverse) = []
    rw [h2]
    rfl
  rw [h1]
  refine ⟨rfl, by decide, by decide, by decide, fun jid lang => rfl, fun jid lang segs g hg => ?_⟩
  simp [to_transcript_json, hg]

/-! ### Clamp discards, manifest parsing, chunk loading -/

/-- Claim C9: when a converted candidate segment is discarded by the
window clamping step (its global end is below `window.start + EPS`,
or its global start is above `window.end - EPS`), the merge state is
completely unchanged: no counter moves, nothing is emitted, and the
running last accepted end stays put. -/
theorem C9_clamp_invisible (minSeg overlap : ℚ) (sim : String → String → ℚ)
    (cStart cEnd : ℚ) (st : MState) (s : Seg)
    (h : s.stop + cStart < cStart + EPS ∨ cEnd - EPS < s.start + cStart) :
    mergeStep minSeg overlap sim cStart cEnd st s = st := by
  simp only [mergeStep]
  rw [if_pos h]

/-- Witness for C9 at a concrete input: a zero length segment at the
very start of the window is clamp discarded and leaves the initial
state untouched. -/
theorem C9_clamp_invisible_witness :
    mergeStep MIN_SEGMENT_SEC OVERLAP_SEC simW 0 600 initState ⟨0, 0, "x"⟩ = initState :=
  C9_clamp_invisible MIN_SEGMENT_SEC OVERLAP_SEC simW 0 600 initState ⟨0, 0, "x"⟩
    (Or.inl (by norm_num [EPS]))

/-- Claim C4 (as stated, refuted): manifest parsing silently accepts
a record with a negative index and with end not greater than start;
no validation error of any kind is raised. -/
theorem C4_counterexample :
    parse_manifest_jsonl [⟨some (-3), some 5, some 2⟩] = Except.ok [⟨-3, 5, 2⟩] := by
  with_unfolding_all rfl

/-- Claim C4 (amended): manifest parsing performs no value validation
at all: any record with all three required fields present is accepted
as is (negative indices and `end_sec` at most `start_sec` included),
and a record with a required field missing fails with the generic
`KeyError`; no `MalformedWindowError` exists in the code. -/
theorem C4_no_validation :
    (∀ (i : ℤ) (s e : ℚ), parse_manifest_entry ⟨some i, some s, some e⟩ = Except.ok ⟨i, s, e⟩)
    ∧ (∀ r : RawWindowRecord,
        r.index = none ∨ r.start_sec = none ∨ r.end_sec = none →
        parse_manifest_entry r = Except.error PyErr.keyError) := by
  constructor
  · intro i s e
    rfl
  · rintro ⟨ix, ss, es⟩ h
    cases ix <;> cases ss <;> cases es <;> first | rfl | simp_all

/-- Witness for C4 (amended) at concrete records: an invalid valued
record parses fine, a record missing its index errors. -/
theorem C4_no_validation_witness :
    parse_manifest_entry ⟨some (-3), some 5, some 2⟩ = Except.ok ⟨-3, 5, 2⟩
    ∧ parse_manifest_entry ⟨none, some 0, some 1⟩ = Except.error PyErr.keyError :=
  ⟨C4_no_validation.1 (-3) 5 2, C4_no_validation.2 ⟨none, some 0, some 1⟩ (Or.inl rfl)⟩

/-- Claim C7: the loader discards exactly those raw segments whose
text is empty after trimming or whose duration is at most `EPS`, and
passes every other segment through with its start, end, and trimmed
text. -/
theorem C7_load_filter (raw : List RawSeg) :
    load_chunk_segments raw
      = raw.filterMap (fun r =>
          if pyStrip r.text = "" ∨ r.stop - r.start ≤ EPS then none
          else some ⟨r.start, r.stop, pyStrip r.text⟩)
    ∧ ∀ s : Seg, s ∈ load_chunk_segments raw ↔
        ∃ r ∈ raw, pyStrip r.text ≠ "" ∧ EPS < r.stop - r.start
          ∧ s = ⟨r.start, r.stop, pyStrip r.text⟩ := by
  have h1 : ∀ l : List RawSeg, load_chunk_segments l
      = l.filterMap (fun r =>
          if pyStrip r.text = "" ∨ r.stop - r.start ≤ EPS then none
          else some ⟨r.start, r.stop, pyStrip r.text⟩) := by
    intro l
    induction l with
    | nil => rfl
    | cons r t ih =>
      by_cases ha : pyStrip r.text = ""
      · rw [List.filterMap_cons_none (by rw [if_pos (Or.inl ha)])]
        simp only [load_chunk_segments]
        rw [if_pos ha, ih]
      · by_cases hb : r.stop - r.start ≤ EPS
        · rw [List.filterMap_cons_none (by rw [if_pos (Or.inr hb)])]
          simp only [load_chunk_segments]
          rw [if_neg ha, if_pos hb, ih]
        · rw [List.filterMap_cons_some (by rw [if_neg (not_or.mpr ⟨ha, hb⟩)])]
          simp only [load_chunk_segments]
          rw [if_neg ha, if_neg hb, ih]
  refine ⟨h1 raw, fun s => ?_⟩
  rw [h1 raw]
  simp only [List.mem_filterMap]
  constructor
  · rintro ⟨r, hr, hf⟩
    by_cases hc : pyStrip r.text = "" ∨ r.stop - r.start ≤ EPS
    · rw [if_pos hc] at hf
      exact absurd hf (by simp)
    · rw [if_neg hc] at hf
      push_neg at hc
      exact ⟨r, hr, hc.1, hc.2, (Option.some.injEq _ _).mp hf.symm ▸ rfl⟩
  · rintro ⟨r, hr, hne, hlt, rfl⟩
    refine ⟨r, hr, ?_⟩
    rw [if_neg (by push_neg; exact ⟨hne, hlt⟩)]

/-! ### Missing chunks are skipped; provenance of merged text -/

theorem mergeStep_chunks_eq (minSeg overlap : ℚ) (sim : String → String → ℚ)
    (cStart cEnd : ℚ) (st : MState) (s : Seg) :
    (mergeStep minSeg overlap sim cStart cEnd st s).chunks = st.chunks := by
  simp only [mergeStep]
  split_ifs <;> rfl

theorem foldl_mergeStep_chunks (minSeg overlap : ℚ) (sim : String → String → ℚ)
    (cStart cEnd : ℚ) :
    ∀ (segs : List Seg) (st : MState),
      (segs.foldl (mergeStep minSeg overlap sim cStart cEnd) st).chunks = st.chunks
  | [], _ => rfl
  | s :: t, st => by
    rw [List.foldl_cons,
      foldl_mergeStep_chunks minSeg overlap sim cStart cEnd t (mergeStep minSeg overlap sim cStart cEnd st s),
      mergeStep_chunks_eq]

theorem foldl_mergeChunk_chunks (minSeg overlap : ℚ) (sim : String → String → ℚ)
    (fetch : ℤ → Option (List RawSeg)) :
    ∀ (manifest : List Entry) (st : MState),
      (manifest.foldl (mergeChunk minSeg overlap sim fetch) st).chunks
        = st.chunks + manifest.countP (fun e => (fetch e.index).isSome)
  | [], st => by simp
  | e :: rest, st => by
    rw [List.foldl_cons, foldl_mergeChunk_chunks minSeg overlap sim fetch rest]
    cases hf : fetch e.index with
    | none =>
      have h1 : mergeChunk minSeg overlap sim fetch st e = st := by
        simp only [mergeChunk, hf]
      rw [h1, List.countP_cons]
      simp [hf]
    | some raw =>
      have h1 : (mergeChunk minSeg overlap sim fetch st e).chunks = st.chunks + 1 := by
        simp only [mergeChunk, hf]
        rw [foldl_mergeStep_chunks]
      rw [h1, List.countP_cons]
      simp [hf]
      omega

theorem foldl_mergeChunk_filter (minSeg overlap : ℚ) (sim : String → String → ℚ)
    (fetch : ℤ → Option (List RawSeg)) :
    ∀ (manifest : List Entry) (st : MState),
      manifest.foldl (mergeChunk minSeg overlap sim fetch) st
        = (manifest.filter (fun e => (fetch e.index).isSome)).foldl
            (mergeChunk minSeg overlap sim fetch) st
  | [], _ => rfl
  | e :: rest, st => by
    rw [List.foldl_cons, List.filter_cons]
    cases hf : fetch e.index with
    | none =>
      have h1 : mergeChunk minSeg overlap sim fetch st e = st := by
        simp only [mergeChunk, hf]
      rw [h1]
      simp only [hf, Option.isSome_none, Bool.false_eq_true, if_false]
      exact foldl_mergeChunk_filter minSeg overlap sim fetch rest st
    | some raw =>
      simp only [hf, Option.isSome_some, if_true, List.foldl_cons]
      exact foldl_mergeChunk_filter minSeg overlap sim fetch rest _

theorem mergeStep_text_mem (minSeg overlap : ℚ) (sim : String → String → ℚ)
    (cStart cEnd : ℚ) (st : MState) (s : Seg) :
    ∀ g ∈ (mergeStep minSeg overlap sim cStart cEnd st s).revMerged,
      g ∈ st.revMerged ∨ g.text = s.text := by
  intro g hg
  simp only [mergeStep] at hg
  split_ifs at hg
  · exact Or.inl hg
  · exact Or.inl hg
  · exact Or.inl hg
  · exact Or.inl hg
  · rcases List.mem_cons.mp hg with h | h
    · exact Or.inr (by rw [h])
    · exact Or.inl h
  · exact Or.inl hg
  · rcases List.mem_cons.mp hg with h | h
    · exact Or.inr (by rw [h])
    · exact Or.inl h

theorem foldl_mergeStep_text (minSeg overlap : ℚ) (sim : String → String → ℚ)
    (cStart cEnd : ℚ) :
    ∀ (segs : List Seg) (st : MState) (g : GSeg),
      g ∈ (segs.foldl (mergeStep minSeg overlap sim cStart cEnd) st).revMerged →
      g ∈ st.revMerged ∨ ∃ s ∈ segs, g.text = s.text
  | [], _, _, hg => Or.inl hg
  | s :: t, st, g, hg => by
    rw [List.foldl_cons] at hg
    rcases foldl_mergeStep_text minSeg overlap sim cStart cEnd t _ g hg with h | ⟨s', hs', ht⟩
    · rcases mergeStep_text_mem minSeg overlap sim cStart cEnd st s g h with h' | h'
      · exact Or.inl h'
      · exact Or.inr ⟨s, List.mem_cons_self s t, h'⟩
    · exact Or.inr ⟨s', List.mem_cons_of_mem s hs', ht⟩

theorem foldl_mergeChunk_text (minSeg overlap : ℚ) (sim : String → String → ℚ)
    (fetch : ℤ → Option (List RawSeg)) :
    ∀ (manifest : List Entry) (st : MState) (g : GSeg),
      g ∈ (manifest.foldl (mergeChunk minSeg overlap sim fetch) st).revMerged →
      g ∈ st.revMerged
        ∨ ∃ e ∈ manifest, ∃ raw, fetch e.index = some raw
            ∧ ∃ s ∈ load_chunk_segments raw, g.text = s.text
  | [], _, _, hg => Or.inl hg
  | e :: rest, st, g, hg => by
    rw [List.foldl_cons] at hg
    rcases foldl_mergeChunk_text minSeg overlap sim fetch rest _ g hg with h | ⟨e', he', hrest⟩
    · cases hf : fetch e.index with
      | none =>
        have h1 : mergeChunk minSeg overlap sim fetch st e = st := by
          simp only [mergeChunk, hf]
        rw [h1] at h
        exact Or.inl h
      | some raw =>
        have h1 : (mergeChunk minSeg overlap sim fetch st e).revMerged
            = ((load_chunk_segments raw).foldl
                (mergeStep minSeg overlap sim e.start_sec e.end_sec) st).revMerged := by
          simp only [mergeChunk, hf]
        rw [h1] at h
        rcases foldl_mergeStep_text minSeg overlap sim e.start_sec e.end_sec _ st g h with h' | ⟨s, hs, ht⟩
        · exact Or.inl h'
        · exact Or.inr ⟨e, List.mem_cons_self e rest, raw, hf, s, hs, ht⟩
    · exact Or.inr ⟨e', List.mem_cons_of_mem e he', hrest⟩

theorem repairGo_text :
    ∀ (l : List GSeg) (minSeg : ℚ) (n : ℕ) (last : ℚ) (g : GSeg),
      g ∈ repairGo minSeg n last l → ∃ gp ∈ l, g.text = gp.text
  | [], _, _, _, g, hg => absurd hg (List.not_mem_nil g)
  | seg :: rest, m, n, last, g, hg => by
    rw [repairGo_cons_eq] at hg
    split_ifs at hg with hd
    · rcases repairGo_text rest m n last g hg with ⟨gp, hgp, ht⟩
      exact ⟨gp, List.mem_cons_of_mem seg hgp, ht⟩
    · rcases List.mem_cons.mp hg with rfl | hg'
      · exact ⟨seg, List.mem_cons_self seg rest, rfl⟩
      · rcases repairGo_text rest m (n + 1) seg.stop g hg' with ⟨gp, hgp, ht⟩
        exact ⟨gp, List.mem_cons_of_mem seg hgp, ht⟩

/-- Claim C6: a window whose chunk result is missing is skipped
without failing: the merge result equals the merge of the manifest
restricted to the windows whose chunk was found, the processed chunk
counter counts exactly the windows whose chunk result was found, and
every output segment's text stems from a loaded segment of a chunk
that was found. -/
theorem C6_missing_chunks (minSeg overlap : ℚ) (sim : String → String → ℚ)
    (manifest : List Entry) (fetch : ℤ → Option (List RawSeg)) :
    merge_segments minSeg overlap sim manifest fetch
      = merge_segments minSeg overlap sim
          (manifest.filter (fun e => (fetch e.index).isSome)) fetch
    ∧ (merge_segments minSeg overlap sim manifest fetch).2.chunks
        = manifest.countP (fun e => (fetch e.index).isSome)
    ∧ ∀ g ∈ (merge_segments minSeg overlap sim manifest fetch).1,
        ∃ e ∈ manifest, ∃ raw, fetch e.index = some raw
          ∧ ∃ s ∈ load_chunk_segments raw, g.text = s.text := by
  refine ⟨?_, ?_, ?_⟩
  · unfold merge_segments
    rw [foldl_mergeChunk_filter]
  · show (manifest.foldl (mergeChunk minSeg overlap sim fetch) initState).chunks = _
    rw [foldl_mergeChunk_chunks]
    exact Nat.zero_add _
  · intro g hg
    have hg' : g ∈ repairGo minSeg 0 0
        ((manifest.foldl (mergeChunk minSeg overlap sim fetch) initState).revMerged.reverse) := hg
    rcases repairGo_text _ minSeg 0 0 g hg' with ⟨gp, hgp, ht⟩
    have hgp' : gp ∈ (manifest.foldl (mergeChunk minSeg overlap sim fetch) initState).revMerged :=
      List.mem_reverse.mp hgp
    rcases foldl_mergeChunk_text minSeg overlap sim fetch manifest initState gp hgp' with h | h
    · exact absurd h (List.not_mem_nil gp)
    · rcases h with ⟨e, he, raw, hf, s, hs, ht'⟩
      exact ⟨e, he, raw, hf, s, hs, ht.trans ht'⟩

/-! ### Manifest sorting is stable and keeps duplicates -/

theorem filter_orderedInsert (i : ℤ) (a : Entry) :
    ∀ l : List Entry,
      (List.orderedInsert entryLe a l).filter (fun e => decide (e.index = i))
        = (a :: l).filter (fun e => decide (e.index = i))
  | [] => rfl
  | b :: t => by
    simp only [List.orderedInsert]
    split_ifs with hab
    · rfl
    · have hlt : b.index < a.index := lt_of_not_le hab
      have ih := filter_orderedInsert i a t
      by_cases ha : a.index = i <;> by_cases hb : b.index = i
      · exfalso
        omega
      · simp [List.filter_cons, ha, hb, ih]
      · simp [List.filter_cons, ha, hb, ih]
      · simp [List.filter_cons, ha, hb, ih]

theorem insertionSort_filter_idx (i : ℤ) :
    ∀ es : List Entry,
      (List.insertionSort entryLe es).filter (fun e => decide (e.index = i))
        = es.filter (fun e => decide (e.index = i))
  | [] => rfl
  | a :: t => by
    rw [List.insertionSort, filter_orderedInsert i a (List.insertionSort entryLe t)]
    simp only [List.filter_cons]
    rw [insertionSort_filter_idx i t]

/-- Claim C8: manifest parsing returns the window records sorted
ascending by index; duplicate indices are all kept (the output is a
permutation of the parsed records), and records with equal index
appear in the output in their original input order (the filter at
each index value is unchanged). -/
theorem C8_sorted_stable (rs : List RawWindowRecord) (es l : List Entry)
    (h1 : rs.mapM parse_manifest_entry = Except.ok es)
    (h2 : parse_manifest_jsonl rs = Except.ok l) :
    List.Sorted entryLe l ∧ l.Perm es
    ∧ ∀ i : ℤ, l.filter (fun e => decide (e.index = i))
        = es.filter (fun e => decide (e.index = i)) := by
  have h3 : l = List.insertionSort entryLe es := by
    unfold parse_manifest_jsonl at h2
    rw [h1] at h2
    simpa [Except.map] using h2.symm
  subst h3
  exact ⟨List.sorted_insertionSort entryLe es, List.perm_insertionSort entryLe es,
    fun i => insertionSort_filter_idx i es⟩

/-- Witness for C8 at a concrete manifest with a duplicated index:
the two index 2 records keep their original relative order behind
the index 0 record. -/
theorem C8_sorted_stable_witness :
    List.Sorted entryLe lW ∧ lW.Perm esW
    ∧ ∀ i : ℤ, lW.filter (fun e => decide (e.index = i))
        = esW.filter (fun e => decide (e.index = i)) :=
  C8_sorted_stable rsW esW lW (by with_unfolding_all rfl) (by with_unfolding_all rfl)

/-! ### Text similarity de-duplication -/

theorem dedupScan_iff (sim : String → String → ℚ) (w gs : ℚ) (t : String) :
    ∀ l : List GSeg,
      dedupScan sim w gs t l = true ↔
        ∃ g ∈ l.takeWhile (fun g => decide (gs - w ≤ g.start)),
          DEDUP_SIM_THRESH ≤ sim g.text t
  | [] => by simp [dedupScan]
  | g :: rest => by
    by_cases h1 : gs - w ≤ g.start
    · have htw : (g :: rest).takeWhile (fun g => decide (gs - w ≤ g.start))
          = g :: rest.takeWhile (fun g => decide (gs - w ≤ g.start)) :=
        List.takeWhile_cons_of_pos (by simpa using h1)
      by_cases h2 : DEDUP_SIM_THRESH ≤ sim g.text t
      · rw [htw]
        simp only [dedupScan, if_pos h1, if_pos h2]
        exact iff_of_true trivial ⟨g, List.mem_cons_self g _, h2⟩
      · rw [htw]
        simp only [dedupScan, if_pos h1, if_neg h2]
        rw [dedupScan_iff sim w gs t rest]
        constructor
        · rintro ⟨x, hx, hs⟩
          exact ⟨x, List.mem_cons_of_mem g hx, hs⟩
        · rintro ⟨x, hx, hs⟩
          rcases List.mem_cons.mp hx with rfl | hx'
          · exact absurd hs h2
          · exact ⟨x, hx', hs⟩
    · have htw : (g :: rest).takeWhile (fun g => decide (gs - w ≤ g.start)) = [] :=
        List.takeWhile_cons_of_neg (by simpa using h1)
      rw [htw]
      simp only [dedupScan, if_neg h1]
      constructor
      · intro hfalse
        exact (Bool.false_ne_true hfalse).elim
      · rintro ⟨x, hx, _⟩
        exact absurd hx (List.not_mem_nil x)

/-- Claim C3: a candidate segment (after offset conversion and window
clamping) is rejected with `dropped_overlap` incremented whenever
some already accepted segment, scanned backward while its start is at
least `gs - max(OVERLAP_SEC, 2.0)`, has text similarity at least 0.85
with the candidate's text; in particular, for the two window
fixture where both chunks carry "hello world" across the boundary,
the merge emits exactly one "hello world" segment and
`dropped_overlap` is at least 1. -/
theorem C3_text_dedup :
    (∀ (sim : String → String → ℚ) (cStart cEnd : ℚ) (st : MState) (s : Seg),
      ¬ (s.stop + cStart < cStart + EPS ∨ cEnd - EPS < s.start + cStart) →
      (∃ g ∈ st.revMerged.takeWhile
          (fun g => decide (max (s.start + cStart) cStart - max OVERLAP_SEC 2 ≤ g.start)),
        DEDUP_SIM_THRESH ≤ sim g.text s.text) →
      mergeStep MIN_SEGMENT_SEC OVERLAP_SEC sim cStart cEnd st s
        = { st with dropped_overlap := st.dropped_overlap + 1 })
    ∧ (∀ sim : String → String → ℚ,
        DEDUP_SIM_THRESH ≤ sim "hello world" "hello world" →
        (merge_segmentsD sim manifest3 fetch3).1.map (fun g => g.text) = ["hello world"]
        ∧ 1 ≤ (merge_segmentsD sim manifest3 fetch3).2.dropped_overlap) := by
  have hgen : ∀ (sim : String → String → ℚ) (cStart cEnd : ℚ) (st : MState) (s : Seg),
      ¬ (s.stop + cStart < cStart + EPS ∨ cEnd - EPS < s.start + cStart) →
      (∃ g ∈ st.revMerged.takeWhile
          (fun g => decide (max (s.start + cStart) cStart - max OVERLAP_SEC 2 ≤ g.start)),
        DEDUP_SIM_THRESH ≤ sim g.text s.text) →
      mergeStep MIN_SEGMENT_SEC OVERLAP_SEC sim cStart cEnd st s
        = { st with dropped_overlap := st.dropped_overlap + 1 } := by
    intro sim cStart cEnd st s h1 hex
    have hd : dedupScan sim (max OVERLAP_SEC 2) (max (s.start + cStart) cStart) s.text
        st.revMerged = true := (dedupScan_iff sim _ _ _ st.revMerged).mpr hex
    simp only [mergeStep]
    rw [if_neg h1, if_pos hd]
  refine ⟨hgen, ?_⟩
  intro sim hsim
  have hA : mergeChunk MIN_SEGMENT_SEC OVERLAP_SEC sim fetch3 initState entry0 = st1 := by
    with_unfolding_all rfl
  have hstep : mergeStep MIN_SEGMENT_SEC OVERLAP_SEC sim entry1.start_sec entry1.end_sec st1 seg1c
      = { st1 with dropped_overlap := st1.dropped_overlap + 1 } := by
    refine hgen sim entry1.start_sec entry1.end_sec st1 seg1c ?_ ⟨g0, ?_, ?_⟩
    · norm_num [entry1, seg1c, EPS]
    · have htw : st1.revMerged.takeWhile
          (fun g => decide (max (seg1c.start + entry1.start_sec) entry1.start_sec
            - max OVERLAP_SEC 2 ≤ g.start)) = [g0] := by
        with_unfolding_all rfl
      rw [htw]
      exact List.mem_cons_self g0 []
    · exact hsim
  have hB : mergeChunk MIN_SEGMENT_SEC OVERLAP_SEC sim fetch3 st1 entry1 = st2 := by
    have hf : fetch3 entry1.index = some chunk1 := by with_unfolding_all rfl
    have hload : load_chunk_segments chunk1 = [seg1c] := by with_unfolding_all rfl
    simp only [mergeChunk, hf, hload, List.foldl_cons, List.foldl_nil]
    rw [hstep]
    rfl
  have hfold : List.foldl (mergeChunk MIN_SEGMENT_SEC OVERLAP_SEC sim fetch3) initState manifest3
      = st2 := by
    show List.foldl (mergeChunk MIN_SEGMENT_SEC OVERLAP_SEC sim fetch3) initState [entry0, entry1]
      = st2
    rw [List.foldl_cons, hA, List.foldl_cons, hB, List.foldl_nil]
  constructor
  · show (repairGo MIN_SEGMENT_SEC 0 0
        ((List.foldl (mergeChunk MIN_SEGMENT_SEC OVERLAP_SEC sim fetch3) initState
            manifest3).revMerged.reverse)).map (fun g => g.text) = ["hello world"]
    rw [hfold]
    with_unfolding_all rfl
  · show 1 ≤ (List.foldl (mergeChunk MIN_SEGMENT_SEC OVERLAP_SEC sim fetch3) initState
        manifest3).dropped_overlap
    rw [hfold]
    decide

/-! ### Output text is trimmed, non empty, and comes from the input -/

theorem dropWhile_idem (p : Char → Bool) (l : List Char) :
    (l.dropWhile p).dropWhile p = l.dropWhile p := by
  cases hm : l.dropWhile p with
  | nil => rfl
  | cons c t =>
    have h1 := List.head?_dropWhile_not p l
    rw [hm] at h1
    simp only [List.head?_cons] at h1
    exact List.dropWhile_cons_of_neg (by simp [h1])

theorem dropWhile_append_cons (p : Char → Bool) (c : Char) (h : p c = false) :
    ∀ (xs ys : List Char), (xs ++ c :: ys).dropWhile p = xs.dropWhile p ++ c :: ys
  | [], ys => by
    simp only [List.nil_append, List.dropWhile_nil]
    exact List.dropWhile_cons_of_neg (by simp [h])
  | a :: t, ys => by
    by_cases ha : p a
    · rw [List.cons_append, List.dropWhile_cons_of_pos ha, List.dropWhile_cons_of_pos ha,
        dropWhile_append_cons p c h t ys]
    · rw [List.cons_append, List.dropWhile_cons_of_neg ha, List.dropWhile_cons_of_neg ha,
        List.cons_append]

theorem stripChars_idem (l : List Char) : stripChars (stripChars l) = stripChars l := by
  have hA : (stripChars l).dropWhile Char.isWhitespace = stripChars l := by
    unfold stripChars
    cases hm : l.dropWhile Char.isWhitespace with
    | nil => rfl
    | cons c t =>
      have hc : Char.isWhitespace c = false := by
        have h1 := List.head?_dropWhile_not Char.isWhitespace l
        rw [hm] at h1
        simpa using h1
      have h2 : (c :: t).reverse.dropWhile Char.isWhitespace
          = t.reverse.dropWhile Char.isWhitespace ++ [c] := by
        rw [List.reverse_cons]
        exact dropWhile_append_cons Char.isWhitespace c hc t.reverse []
      rw [h2, List.reverse_append]
      simp only [List.reverse_cons, List.reverse_nil, List.nil_append, List.singleton_append]
      exact List.dropWhile_cons_of_neg (by simp [hc])
  show ((((stripChars l).dropWhile Char.isWhitespace).reverse).dropWhile
      Char.isWhitespace).reverse = stripChars l
  rw [hA]
  unfold stripChars
  rw [List.reverse_reverse, dropWhile_idem]

theorem pyStrip_idem (s : String) : pyStrip (pyStrip s) = pyStrip s := by
  unfold pyStrip
  rw [show (String.mk (stripChars s.data)).data = stripChars s.data from rfl, stripChars_idem]

theorem load_text_mem :
    ∀ (raw : List RawSeg) (s : Seg), s ∈ load_chunk_segments raw →
      ∃ r ∈ raw, s.text = pyStrip r.text ∧ pyStrip r.text ≠ ""
  | [], s, hs => absurd hs (List.not_mem_nil s)
  | r :: t, s, hs => by
    simp only [load_chunk_segments] at hs
    split_ifs at hs with h1 h2
    · rcases load_text_mem t s hs with ⟨r', hr', ht⟩
      exact ⟨r', List.mem_cons_of_mem r hr', ht⟩
    · rcases load_text_mem t s hs with ⟨r', hr', ht⟩
      exact ⟨r', List.mem_cons_of_mem r hr', ht⟩
    · rcases List.mem_cons.mp hs with rfl | hs'
      · exact ⟨r, List.mem_cons_self r t, rfl, h1⟩
      · rcases load_text_mem t s hs' with ⟨r', hr', ht⟩
        exact ⟨r', List.mem_cons_of_mem r hr', ht⟩

/-- Claim C10: every segment in the final merged output carries text
that is non empty, has no leading or trailing whitespace (trimming it
again is the identity), and is exactly the trimmed text of some input
chunk segment: neither the merge pass nor the repair pass modifies a
segment's text. -/
theorem C10_text_provenance (sim : String → String → ℚ) (manifest : List Entry)
    (fetch : ℤ → Option (List RawSeg)) :
    ∀ g ∈ (merge_segmentsD sim manifest fetch).1,
      g.text ≠ "" ∧ pyStrip g.text = g.text
      ∧ ∃ e ∈ manifest, ∃ raw, fetch e.index = some raw
          ∧ ∃ r ∈ raw, g.text = pyStrip r.text := by
  intro g hg
  have hg' : g ∈ repairGo MIN_SEGMENT_SEC 0 0
      ((manifest.foldl (mergeChunk MIN_SEGMENT_SEC OVERLAP_SEC sim fetch)
          initState).revMerged.reverse) := hg
  rcases repairGo_text _ MIN_SEGMENT_SEC 0 0 g hg' with ⟨gp, hgp, ht⟩
  have hgp' : gp ∈ (manifest.foldl (mergeChunk MIN_SEGMENT_SEC OVERLAP_SEC sim fetch)
      initState).revMerged := List.mem_reverse.mp hgp
  rcases foldl_mergeChunk_text MIN_SEGMENT_SEC OVERLAP_SEC sim fetch manifest initState gp hgp'
    with h | ⟨e, he, raw, hf, s, hs, ht'⟩
  · exact absurd h (List.not_mem_nil gp)
  · rcases load_text_mem raw s hs with ⟨r, hr, hst, hne⟩
    have htext : g.text = pyStrip r.text := by rw [ht, ht', hst]
    refine ⟨?_, ?_, e, he, raw, hf, r, hr, htext⟩
    · rw [htext]
      exact hne
    · rw [htext]
      exact pyStrip_idem r.text

/-- Witness for C10 at the de-dup fixture: the single output segment
carries the trimmed, non empty text "hello world" of chunk 0. -/
theorem C10_text_provenance_witness :
    g0.text ≠ "" ∧ pyStrip g0.text = g0.text
    ∧ ∃ e ∈ manifest3, ∃ raw, fetch3 e.index = some raw
        ∧ ∃ r ∈ raw, g0.text = pyStrip r.text :=
  C10_text_provenance simW manifest3 fetch3 g0 (by
    rw [show (merge_segmentsD simW manifest3 fetch3).1 = [g0] from by with_unfolding_all rfl]
    exact List.mem_cons_self g0 [])

/-! ### Witnesses at concrete inputs -/

/-- Witness for C1 at the de-dup fixture. -/
theorem C1_posted_invariant_witness :
    List.Chain' (fun a b => a.start ≤ b.start) (merge_segmentsD simW manifest3 fetch3).1
    ∧ List.Chain' (fun a b => a.stop ≤ b.start) (merge_segmentsD simW manifest3 fetch3).1
    ∧ (∀ g ∈ (merge_segmentsD simW manifest3 fetch3).1, MIN_SEGMENT_SEC ≤ g.stop - g.start)
    ∧ List.Chain' (fun a b => a.stop ≤ b.stop) (merge_segmentsD simW manifest3 fetch3).1
    ∧ (merge_segmentsD simW manifest3 fetch3).1.map (fun g => g.id)
        = List.range (merge_segmentsD simW manifest3 fetch3).1.length :=
  C1_posted_invariant simW manifest3 fetch3

/-- Witness for C3: the de-dup rejection applied at the concrete
boundary state, and the concrete two chunk scenario evaluated with a
similarity function rating identical strings 1.0. -/
theorem C3_text_dedup_witness :
    mergeStep MIN_SEGMENT_SEC OVERLAP_SEC simW entry1.start_sec entry1.end_sec st1 seg1c
      = { st1 with dropped_overlap := st1.dropped_overlap + 1 }
    ∧ ((merge_segmentsD simW manifest3 fetch3).1.map (fun g => g.text) = ["hello world"]
       ∧ 1 ≤ (merge_segmentsD simW manifest3 fetch3).2.dropped_overlap) := by
  refine ⟨C3_text_dedup.1 simW entry1.start_sec entry1.end_sec st1 seg1c ?_ ⟨g0, ?_, ?_⟩,
          C3_text_dedup.2 simW ?_⟩
  · norm_num [entry1, seg1c, EPS]
  · rw [show st1.revMerged.takeWhile
        (fun g => decide (max (seg1c.start + entry1.start_sec) entry1.start_sec
          - max OVERLAP_SEC 2 ≤ g.start)) = [g0] from by with_unfolding_all rfl]
    exact List.mem_cons_self g0 []
  · norm_num [simW, DEDUP_SIM_THRESH]
  · norm_num [simW, DEDUP_SIM_THRESH]

/-- Witness for C5 at the empty manifest with an empty chunk store. -/
theorem C5_empty_input_witness :
    (merge_segmentsD simW [] (fun _ => none)).1 = []
    ∧ to_txt (merge_segmentsD simW [] (fun _ => none)).1 = ""
    ∧ to_vtt (merge_segmentsD simW [] (fun _ => none)).1 = "WEBVTT\n"
    ∧ to_srt (merge_segmentsD simW [] (fun _ => none)).1 = ""
    ∧ (∀ jid lang, (to_transcript_json jid lang
        (merge_segmentsD simW [] (fun _ => none)).1).duration_sec = 0)
    ∧ (∀ jid lang (segs : List GSeg) (g : GSeg), segs.getLast? = some g →
        (to_transcript_json jid lang segs).duration_sec = g.stop) :=
  C5_empty_input simW [] (fun _ => none) (by simp)

/-- Witness for C6 at the de-dup fixture (both chunks present). -/
theorem C6_missing_chunks_witness :
    merge_segments MIN_SEGMENT_SEC OVERLAP_SEC simW manifest3 fetch3
      = merge_segments MIN_SEGMENT_SEC OVERLAP_SEC simW
          (manifest3.filter (fun e => (fetch3 e.index).isSome)) fetch3
    ∧ (merge_segments MIN_SEGMENT_SEC OVERLAP_SEC simW manifest3 fetch3).2.chunks
        = manifest3.countP (fun e => (fetch3 e.index).isSome)
    ∧ ∀ g ∈ (merge_segments MIN_SEGMENT_SEC OVERLAP_SEC simW manifest3 fetch3).1,
        ∃ e ∈ manifest3, ∃ raw, fetch3 e.index = some raw
          ∧ ∃ s ∈ load_chunk_segments raw, g.text = s.text :=
  C6_missing_chunks MIN_SEGMENT_SEC OVERLAP_SEC simW manifest3 fetch3

/-- Witness for C7 at a concrete raw chunk: a segment with padded
text is kept trimmed, a zero duration segment and a whitespace only
segment are dropped. -/
theorem C7_load_filter_witness :
    load_chunk_segments [⟨0, 1, " a "⟩, ⟨0, 0, "b"⟩, ⟨2, 3, "  "⟩]
      = ([⟨0, 1, " a "⟩, ⟨0, 0, "b"⟩, ⟨2, 3, "  "⟩] : List RawSeg).filterMap (fun r =>
          if pyStrip r.text = "" ∨ r.stop - r.start ≤ EPS then none
          else some ⟨r.start, r.stop, pyStrip r.text⟩)
    ∧ ∀ s : Seg, s ∈ load_chunk_segments [⟨0, 1, " a "⟩, ⟨0, 0, "b"⟩, ⟨2, 3, "  "⟩] ↔
        ∃ r ∈ ([⟨0, 1, " a "⟩, ⟨0, 0, "b"⟩, ⟨2, 3, "  "⟩] : List RawSeg),
          pyStrip r.text ≠ "" ∧ EPS < r.stop - r.start
            ∧ s = ⟨r.start, r.stop, pyStrip r.text⟩ :=
  C7_load_filter [⟨0, 1, " a "⟩, ⟨0, 0, "b"⟩, ⟨2, 3, "  "⟩]
